import Mathlib

/-!
Shallow embedding of `main.py` from the ptp-stats repository: a PTP log
statistics pipeline.  Each Python function is translated to a Lean
definition; external calls (`scipy.stats.shapiro`, `scipy.stats.mannwhitneyu`)
are abstracted as oracle parameters, numeric data is modelled as exact
rationals, and the file system is modelled as a partial map from paths to
lists of lines.
-/

namespace PtpStats

/-! ## Regular-expression engine

`parse_file` uses the fixed pattern

  `ptp4l\[\d+\]: ptp4l\[\d+.\d+\]: master offset\s+([+-]?\d+)\s+s2 freq\s+([+-]?\d+)\s+path delay\s+(\d+)`

with Python `re.search` semantics: leftmost match position, and within one
position greedy matching with backtracking.  The pattern is a plain
concatenation of literals, `\d+`, `\s+`, one `.` (any character except
newline: the dot between the two `\d+` runs is unescaped in the source), and
three capturing groups.  We embed it as a sequence of items and a
backtracking matcher over `List Char`. -/

/-- One item of the concatenation making up the pattern.  `capture` marks a
capturing group (the groups of the source pattern are `([+-]?\d+)` twice and
`(\d+)` once). -/
inductive RE where
  | lit (s : List Char)
  | digits
  | anyChar
  | spaces
  | digitsGroup
  | signedDigitsGroup
  deriving DecidableEq

/-- Whether the item is a capturing group of the source pattern. -/
def RE.isCapture : RE → Bool
  | .digitsGroup => true
  | .signedDigitsGroup => true
  | _ => false

/-- Python `\s` (ASCII range): space, tab, newline, carriage return,
vertical tab, form feed. -/
def isPySpace (c : Char) : Bool :=
  c = ' ' ∨ c = '\t' ∨ c = '\n' ∨ c = '\r' ∨ c = '\x0b' ∨ c = '\x0c'

/-- All ways `\d+` can consume a prefix of `s`, greedy (longest) first.
Each alternative is the consumed prefix paired with the remaining suffix. -/
def digitSplits (s : List Char) : List (List Char × List Char) :=
  let n := (s.takeWhile Char.isDigit).length
  (List.range n).map (fun i => (s.take (n - i), s.drop (n - i)))

/-- All ways `\s+` can consume a prefix of `s`, greedy first. -/
def spaceSplits (s : List Char) : List (List Char × List Char) :=
  let n := (s.takeWhile isPySpace).length
  (List.range n).map (fun i => (s.take (n - i), s.drop (n - i)))

/-- All ways an item can consume a prefix of `s`, in the priority order the
backtracking engine tries them: for `[+-]?` the sign-consuming branch is
tried before the empty branch, for `+` repetitions longest first. -/
def tryItem : RE → List Char → List (List Char × List Char)
  | .lit l, s => if l = s.take l.length then [(l, s.drop l.length)] else []
  | .digits, s => digitSplits s
  | .digitsGroup, s => digitSplits s
  | .signedDigitsGroup, s =>
    (match s with
     | c :: rest =>
       if c = '+' ∨ c = '-' then
         ((digitSplits rest).map (fun p => (c :: p.1, p.2))) ++ digitSplits s
       else digitSplits s
     | [] => [])
  | .anyChar, s =>
    (match s with
     | c :: rest => if c = '\n' then [] else [([c], rest)]
     | [] => [])
  | .spaces, s => spaceSplits s

/-- First `some` of a list of options (backtracking: first alternative whose
continuation succeeds wins). -/
def firstSome : List (Option α) → Option α
  | [] => none
  | some a :: _ => some a
  | none :: t => firstSome t

/-- Match a whole item sequence at the start of `s`, returning the list of
captured groups on success. -/
def matchSeq : List RE → List Char → Option (List (List Char))
  | [], _ => some []
  | item :: rest, s =>
    firstSome ((tryItem item s).map (fun alt =>
      (matchSeq rest alt.2).map (fun caps =>
        if item.isCapture then alt.1 :: caps else caps)))

/-- Python `re.search`: try to match at each start position from the left;
the leftmost position with a match wins. -/
def regexSearch (pat : List RE) (s : List Char) : Option (List (List Char)) :=
  match s with
  | [] => matchSeq pat []
  | _ :: rest =>
    match matchSeq pat s with
    | some caps => some caps
    | none => regexSearch pat rest

/-- The fixed pattern compiled in `parse_file` (`re_pattern` in the source),
item by item. -/
def rePattern : List RE :=
  [RE.lit ("ptp4l[".toList), RE.digits, RE.lit ("]: ptp4l[".toList),
   RE.digits, RE.anyChar, RE.digits, RE.lit ("]: master offset".toList),
   RE.spaces, RE.signedDigitsGroup, RE.spaces, RE.lit ("s2 freq".toList),
   RE.spaces, RE.signedDigitsGroup, RE.spaces, RE.lit ("path delay".toList),
   RE.spaces, RE.digitsGroup]

/-- Value of a digit character. -/
def digitVal (c : Char) : Nat := c.toNat - 48

/-- Value of a run of digit characters. -/
def digitsToNat (s : List Char) : Nat :=
  s.foldl (fun acc c => 10 * acc + digitVal c) 0

/-- Python `float(...)` applied to a captured string of shape `[+-]?\d+`.
All such values arising here are integers, represented exactly. -/
def strToInt : List Char → Int
  | '+' :: r => (digitsToNat r : Int)
  | '-' :: r => -(digitsToNat r : Int)
  | r => (digitsToNat r : Int)

/-- The Line Extractor: apply the compiled pattern to one log line.  On a
match, return the coerced `(offset, frequency, path delay)` triple
(groups 1, 2, 3 of the pattern). -/
def extractLine (line : String) : Option (Int × Int × Int) :=
  match regexSearch rePattern line.toList with
  | some [o, f, d] => some (strToInt o, strToInt f, strToInt d)
  | _ => none

/-! ## File parsing -/

/-- One iteration of the `for line in lines` loop of `parse_file`: on a
match, `float(offset)` is appended to the offsets list and
`float(path_delay)` to the delays list; the frequency capture (group 2) is
bound but never used. -/
def parseStep (acc : List ℚ × List ℚ) (line : String) : List ℚ × List ℚ :=
  match extractLine line with
  | some (o, _, d) => (acc.1 ++ [(o : ℚ)], acc.2 ++ [(d : ℚ)])
  | none => acc

/-- The accumulation loop of `parse_file` over all lines of the file. -/
def parseLines (lines : List String) : List ℚ × List ℚ :=
  lines.foldl parseStep ([], [])

/-- The pure core of `parse_file` after the file has been read: Python's
`if offsets and delays:` branch returns the pair (after printing statistics
and writing plots), the `else` branch prints
`No valid offset or delay data found.` and returns `None`. -/
def parseFileLines (lines : List String) : Option (List ℚ × List ℚ) :=
  if (parseLines lines).1 ≠ [] ∧ (parseLines lines).2 ≠ [] then
    some (parseLines lines)
  else none

/-- A file system: a path either holds a list of lines or cannot be opened. -/
def FS : Type := String → Option (List String)

/-- `parse_file`: opening a missing/unreadable path raises an I/O error
(modelled as `Except.error`), which propagates to the caller; otherwise the
pure parsing result is returned. -/
def parse_file (fs : FS) (path : String) : Except String (Option (List ℚ × List ℚ)) :=
  match fs path with
  | none => Except.error path
  | some lines => Except.ok (parseFileLines lines)

/-! ## Statistics (numpy calls in `parse_file`) -/

/-- `np.mean` over exact rationals. -/
def npMean (xs : List ℚ) : ℚ := xs.sum / xs.length

/-- `np.min` (total on nonempty input; `parse_file` only applies it to
nonempty data — on empty input numpy raises, cf. `create_plot`). -/
def npMin : List ℚ → ℚ
  | [] => 0
  | x :: r => r.foldl min x

/-- `np.max` (total on nonempty input). -/
def npMax : List ℚ → ℚ
  | [] => 0
  | x :: r => r.foldl max x

/-- The square of `np.std` with its default `ddof=0`: the population
variance, i.e. mean squared deviation with divisor `n` (not `n - 1`). -/
def popVariance (xs : List ℚ) : ℚ :=
  (xs.map (fun x => (x - npMean xs) ^ 2)).sum / xs.length

/-- The statistics block printed by `parse_file` for one data sequence:
mean, min, max, and the (squared) standard deviation.  The printed
`Std Dev` value is the square root of `varianceVal`. -/
structure StatsReport where
  meanVal : ℚ
  minVal : ℚ
  maxVal : ℚ
  varianceVal : ℚ
  deriving DecidableEq

/-- The `Offset Stats` / `Delay Stats` report of `parse_file`. -/
def statsReport (xs : List ℚ) : StatsReport :=
  ⟨npMean xs, npMin xs, npMax xs, popVariance xs⟩

/-! ## Normality test (`run_shapiro_wilk`) -/

/-- Outcome of `run_shapiro_wilk`: either the early return with the
`Not enough data` message, or the printed statistic, p-value, and normality
classification. -/
inductive ShapiroResult where
  | notEnoughData
  | tested (stat : ℚ) (p : ℚ) (normal : Bool)
  deriving DecidableEq

/-- `run_shapiro_wilk`, with `scipy.stats.shapiro` abstracted as an oracle
returning the (statistic, p-value) pair.  Requires at least 3 samples;
classifies the sample as normally distributed exactly when `p > 0.05`. -/
def run_shapiro_wilk (shapiro : List ℚ → ℚ × ℚ) (data : List ℚ) : ShapiroResult :=
  if data.length < 3 then ShapiroResult.notEnoughData
  else
    ShapiroResult.tested (shapiro data).1 (shapiro data).2
      (decide ((shapiro data).2 > 0.05))

/-! ## Two-sample comparison (`run_mannwhiteneyu_test`) -/

/-- Output of `run_mannwhiteneyu_test`: the printed statistic and p-value,
and whether the `Reject Null Hypothesis` verdict was printed (`true`) or the
`Do not Reject` one (`false`). -/
structure MWUResult where
  stat : ℚ
  pValue : ℚ
  rejectNull : Bool
  deriving DecidableEq

/-- `run_mannwhiteneyu_test`, with `scipy.stats.mannwhitneyu` abstracted as
an oracle; `alpha = 0.05`, and the null hypothesis is rejected exactly when
`p < alpha` (strictly). -/
def run_mannwhiteneyu_test (mwu : List ℚ → List ℚ → ℚ × ℚ)
    (data1 data2 : List ℚ) : MWUResult :=
  ⟨(mwu data1 data2).1, (mwu data1 data2).2,
   decide ((mwu data1 data2).2 < (0.05 : ℚ))⟩

/-! ## Plot rendering (`create_plot`) -/

/-- The data a rendered plot depends on: `np.max data`, `np.min data`
(the y-axis limits) and the plotted points. -/
structure PlotData where
  maxValue : ℚ
  minValue : ℚ
  points : List ℚ
  deriving DecidableEq

/-- `create_plot`: `np.max` (line 17) raises `ValueError` on an empty
sequence, modelled as `none`; on nonempty data the plot is rendered from
max, min, and the points. -/
def create_plot (data : List ℚ) : Option PlotData :=
  match data with
  | [] => none
  | x :: r => some ⟨npMax (x :: r), npMin (x :: r), x :: r⟩

/-! ## Orchestrator (`main`) -/

/-- The fixed host list with its log paths under a directory
(`os.path.join dir "beta.log"` etc.). -/
def machinesFor (dir : String) : List (String × String) :=
  [("Beta", dir ++ "/beta.log"), ("Charlie", dir ++ "/charlie.log"),
   ("Delta", dir ++ "/delta.log"), ("Echo", dir ++ "/echo.log")]

/-- One per-host parse loop of `main` (lines 111-119 resp. 132-140): each
host is parsed inside `try`; on an I/O error, or on the `TypeError` raised
by unpacking a `None` result, the error is logged and the loop continues,
so the host is simply absent from the two dictionaries.  The insertion
order of Python dictionaries is modelled by an association list. -/
def hostStep (fs : FS) (acc : List (String × (List ℚ × List ℚ)))
    (m : String × String) : List (String × (List ℚ × List ℚ)) :=
  match parse_file fs m.2 with
  | Except.ok (some pair) => acc ++ [(m.1, pair)]
  | _ => acc

def runHostLoop (fs : FS) (machines : List (String × String)) :
    List (String × (List ℚ × List ℚ)) :=
  machines.foldl (hostStep fs) []

/-- One invocation of the Comparator recorded by the comparison loop of
`main`: host, metric label, and the two sequences passed to
`run_mannwhiteneyu_test`. -/
structure Comparison where
  host : String
  metric : String
  ctrlSeq : List ℚ
  expSeq : List ℚ
  deriving DecidableEq

/-- The comparison loop of `main` (lines 142-149): iterate over the keys of
`control_offset_data` in insertion order; for each host, look the host up
in the experimental dictionaries — a missing key raises an uncaught
`KeyError` (second component `true`), which aborts the loop, discarding the
remaining comparisons; otherwise record the offsets comparison and the
delays comparison and continue. -/
def compareLoop (expd : List (String × (List ℚ × List ℚ))) :
    List (String × (List ℚ × List ℚ)) → List Comparison × Bool
  | [] => ([], false)
  | (name, c) :: rest =>
    match expd.lookup name with
    | none => ([], true)
    | some e =>
      (⟨name, "Offsets", c.1, e.1⟩ :: ⟨name, "Delays", c.2, e.2⟩ ::
        (compareLoop expd rest).1,
       (compareLoop expd rest).2)

/-- Everything observable about one run of `main`: the two parsed data
dictionaries, the comparator invocations that actually happened, and
whether an uncaught `KeyError` escaped (aborting the run). -/
structure MainResult where
  controlData : List (String × (List ℚ × List ℚ))
  experimentalData : List (String × (List ℚ × List ℚ))
  comparisons : List Comparison
  aborted : Bool
  deriving DecidableEq

/-- `main(control_path, experimental_path=None)`. -/
def main (fs : FS) (control_path : String) (experimental_path : Option String) :
    MainResult :=
  match experimental_path with
  | none => ⟨runHostLoop fs (machinesFor control_path), [], [], false⟩
  | some ep =>
    ⟨runHostLoop fs (machinesFor control_path),
     runHostLoop fs (machinesFor ep),
     (compareLoop (runHostLoop fs (machinesFor ep))
       (runHostLoop fs (machinesFor control_path))).1,
     (compareLoop (runHostLoop fs (machinesFor ep))
       (runHostLoop fs (machinesFor control_path))).2⟩

/-! ## Command line entry point (`__main__`) -/

/-- What the `if __name__ == "__main__"` block does, as a function of
`sys.argv` (program name included). -/
inductive CliAction where
  | usageExit1
  | runOne (control : String)
  | runTwo (control experimental : String)
  deriving DecidableEq

/-- The argument dispatch of the source: usage message and `sys.exit(1)`
when `len(sys.argv) > 4 or len(sys.argv) < 2`; `main(sys.argv[1])` when the
count is 2; otherwise `main(sys.argv[1], sys.argv[2])`. -/
def cliMain (argv : List String) : CliAction :=
  if argv.length > 4 ∨ argv.length < 2 then CliAction.usageExit1
  else if argv.length = 2 then CliAction.runOne (argv.getD 1 "")
  else CliAction.runTwo (argv.getD 1 "") (argv.getD 2 "")

/-! ## Specification-side characterizations and concrete instances

The following definitions are not translations of source code: they state,
in direct form, what the spec asserts about the loops above, and provide
the concrete log lines, file systems and oracles used to instantiate the
theorems. -/

/-- The offsets a list of lines should produce according to the spec: one
coerced group-1 capture per matching line, in line order. -/
def lineOffsets (lines : List String) : List ℚ :=
  (lines.filterMap extractLine).map (fun t => ((t.1 : ℚ)))

/-- The delays a list of lines should produce according to the spec: one
coerced group-3 capture per matching line, in line order. -/
def lineDelays (lines : List String) : List ℚ :=
  (lines.filterMap extractLine).map (fun t => ((t.2.2 : ℚ)))

/-- Two lines that are identical except possibly for the frequency capture
(group 2): either literally equal, or both matching with the same offset
and path-delay captures. -/
def freqEquivLine (l₁ l₂ : String) : Prop :=
  l₁ = l₂ ∨ ∃ o f₁ f₂ d, extractLine l₁ = some (o, f₁, d) ∧
    extractLine l₂ = some (o, f₂, d)

/-- What one host contributes to a parse-loop dictionary: its own parse
result alone decides whether it appears, independently of other hosts. -/
def hostParse (fs : FS) (m : String × String) :
    Option (String × (List ℚ × List ℚ)) :=
  match parse_file fs m.2 with
  | Except.ok (some pair) => some (m.1, pair)
  | _ => none

/-- The two comparator invocations (offsets, then delays) the comparison
loop performs for one control-parsed host, given the experimental
dictionary. -/
def comparisonsFor (expd : List (String × (List ℚ × List ℚ)))
    (p : String × (List ℚ × List ℚ)) : List Comparison :=
  match expd.lookup p.1 with
  | some e => [⟨p.1, "Offsets", p.2.1, e.1⟩, ⟨p.1, "Delays", p.2.2, e.2⟩]
  | none => []

/-- The literal log line of the spec's extraction test. -/
def validLine : String :=
  "ptp4l[100]: ptp4l[1.5]: master offset   10 s2 freq   5 path delay   20"

/-- The same line with the frequency field changed from 5 to 7. -/
def lineF7 : String :=
  "ptp4l[100]: ptp4l[1.5]: master offset   10 s2 freq   7 path delay   20"

/-- A file system where hosts Beta and Charlie have valid control logs,
but only Charlie has an experimental log: Beta's experimental parse fails
while its control parse succeeds. -/
def fsC1 : FS := fun p =>
  if p = "ctrl/beta.log" then some [validLine]
  else if p = "ctrl/charlie.log" then some [validLine]
  else if p = "exp/charlie.log" then some [validLine]
  else none

/-- A file system where host Beta has valid control and experimental
logs and every other file is missing. -/
def fsC1w : FS := fun p =>
  if p = "c/beta.log" then some [validLine]
  else if p = "e/beta.log" then some [lineF7]
  else none

/-- A file system holding one readable log file none of whose lines match
the pattern. -/
def fsC3 : FS := fun p =>
  if p = "dir/beta.log" then some ["hello world"] else none

/-- A concrete stand-in for `scipy.stats.shapiro`. -/
def shapiroOracleW : List ℚ → ℚ × ℚ := fun _ => (1, 1/10)

/-- A concrete stand-in for `scipy.stats.mannwhitneyu` returning a p-value
exactly at the threshold. -/
def mwuOracleW : List ℚ → List ℚ → ℚ × ℚ := fun _ _ => (3, 0.05)

/-! ## Theorems -/

theorem foldl_parseStep_eq : ∀ (lines : List String) (acc : List ℚ × List ℚ),
    lines.foldl parseStep acc = (acc.1 ++ lineOffsets lines, acc.2 ++ lineDelays lines)
  | [], acc => by simp [lineOffsets, lineDelays]
  | l :: rest, acc => by
    rw [List.foldl_cons, foldl_parseStep_eq rest]
    cases h : extractLine l with
    | none =>
      simp [parseStep, h, lineOffsets, lineDelays, List.filterMap_cons]
    | some t =>
      obtain ⟨o, f, d⟩ := t
      simp [parseStep, h, lineOffsets, lineDelays, List.filterMap_cons]

theorem parseLines_eq (lines : List String) :
    parseLines lines = (lineOffsets lines, lineDelays lines) := by
  simpa using foldl_parseStep_eq lines ([], [])

theorem length_lineOffsets (lines : List String) :
    (lineOffsets lines).length = lines.countP (fun l => (extractLine l).isSome) := by
  induction lines with
  | nil => simp [lineOffsets]
  | cons l rest ih =>
    unfold lineOffsets at *
    cases h : extractLine l <;>
      simp [List.filterMap_cons, h, List.countP_cons, ih]

/-- Claim C4: for every input file, the offsets and delays sequences the
parser produces have equal length — exactly one element of each per line
matched by the pattern — and each sequence lists the captures of the
matching lines in file order. -/
theorem parse_equal_length_line_order (lines : List String) :
    (parseLines lines).1 = lineOffsets lines ∧
    (parseLines lines).2 = lineDelays lines ∧
    (parseLines lines).1.length = (parseLines lines).2.length ∧
    (parseLines lines).1.length = lines.countP (fun l => (extractLine l).isSome) := by
  have h := parseLines_eq lines
  refine ⟨by rw [h], by rw [h], ?_, ?_⟩
  · rw [h]; simp [lineOffsets, lineDelays]
  · rw [h]; exact length_lineOffsets lines

/-- Claim C3: on a readable file none of whose lines match the pattern,
`parse_file` takes the `No valid offset or delay data found.` branch and
returns `None` — an ordinary return value, not a raised exception. -/
theorem parse_file_no_match (fs : FS) (path : String) (lines : List String)
    (hread : fs path = some lines)
    (hnone : ∀ l ∈ lines, extractLine l = none) :
    parse_file fs path = Except.ok none := by
  have hoff : lineOffsets lines = [] := by
    unfold lineOffsets
    rw [List.filterMap_eq_nil_iff.mpr hnone]
    rfl
  unfold parse_file
  rw [hread]
  show Except.ok (parseFileLines lines) = Except.ok none
  unfold parseFileLines
  rw [parseLines_eq]
  simp [hoff]

theorem parse_file_no_match_witness :
    parse_file fsC3 ("dir/beta.log") = Except.ok none :=
  parse_file_no_match fsC3 ("dir/beta.log") (["hello world"]) (by decide) (by decide)

/-- Claim C5: the extractor applied to the literal line
`ptp4l[100]: ptp4l[1.5]: master offset   10 s2 freq   5 path delay   20`
matches, with coerced offset 10 and coerced path delay 20. -/
theorem extract_literal_example :
    extractLine validLine = some (10, 5, 20) ∧
    parseLines [validLine] = ([(10 : ℚ)], [(20 : ℚ)]) := by
  constructor <;> decide

/-- Claim C6: a sample of fewer than 3 values makes `run_shapiro_wilk`
print the `Not enough data` message and return without a test result; on 3
or more values it reports the oracle's statistic and p-value and classifies
the sample as normally distributed exactly when the p-value exceeds 0.05. -/
theorem run_shapiro_wilk_spec (shapiro : List ℚ → ℚ × ℚ) (data : List ℚ) :
    (data.length < 3 → run_shapiro_wilk shapiro data = ShapiroResult.notEnoughData) ∧
    (3 ≤ data.length →
      run_shapiro_wilk shapiro data =
        ShapiroResult.tested (shapiro data).1 (shapiro data).2
          (decide ((shapiro data).2 > 0.05))) ∧
    ∀ s p b, run_shapiro_wilk shapiro data = ShapiroResult.tested s p b →
      (s, p) = shapiro data ∧ (b = true ↔ p > 0.05) ∧ 3 ≤ data.length := by
  unfold run_shapiro_wilk
  by_cases h : data.length < 3
  · rw [if_pos h]
    exact ⟨fun _ => rfl, fun h3 => absurd h3 (not_le.mpr h),
      fun s p b hb => by cases hb⟩
  · rw [if_neg h]
    refine ⟨fun hlt => absurd hlt h, fun _ => rfl, fun s p b hb => ?_⟩
    injection hb with hs hp hbb
    subst hs; subst hp; subst hbb
    exact ⟨rfl, by simp, not_lt.mp h⟩

theorem run_shapiro_wilk_spec_witness :
    run_shapiro_wilk shapiroOracleW [1, 2] = ShapiroResult.notEnoughData ∧
    run_shapiro_wilk shapiroOracleW [1, 2, 3] =
      ShapiroResult.tested 1 (1/10) true := by
  constructor
  · exact (run_shapiro_wilk_spec shapiroOracleW [1, 2]).1 (by decide)
  · have h := (run_shapiro_wilk_spec shapiroOracleW [1, 2, 3]).2.1 (by decide)
    rw [h]
    simp only [shapiroOracleW]
    norm_num

/-- Claim C8: `run_mannwhiteneyu_test` reports the oracle's statistic and
p-value and prints the `Reject Null Hypothesis` verdict exactly when the
p-value is strictly below 0.05; at p-value exactly 0.05 it prints the
`Do not Reject` verdict. -/
theorem run_mwu_threshold (mwu : List ℚ → List ℚ → ℚ × ℚ)
    (data1 data2 : List ℚ) :
    (run_mannwhiteneyu_test mwu data1 data2).stat = (mwu data1 data2).1 ∧
    (run_mannwhiteneyu_test mwu data1 data2).pValue = (mwu data1 data2).2 ∧
    ((run_mannwhiteneyu_test mwu data1 data2).rejectNull = true ↔
      (mwu data1 data2).2 < 0.05) ∧
    ((mwu data1 data2).2 = 0.05 →
      (run_mannwhiteneyu_test mwu data1 data2).rejectNull = false) := by
  refine ⟨rfl, rfl, by simp [run_mannwhiteneyu_test], fun h => ?_⟩
  simp [run_mannwhiteneyu_test, h]

theorem run_mwu_threshold_witness :
    (run_mannwhiteneyu_test mwuOracleW [1] [2]).rejectNull = false :=
  (run_mwu_threshold mwuOracleW [1] [2]).2.2.2 rfl

theorem foldl_min_mem : ∀ (r : List ℚ) (x : ℚ), r.foldl min x ∈ x :: r
  | [], _ => by simp
  | a :: r, x => by
    rw [List.foldl_cons]
    have h := foldl_min_mem r (min x a)
    simp only [List.mem_cons] at h ⊢
    rcases h with h1 | h1
    · rcases min_choice x a with hm | hm
      · exact Or.inl (h1.trans hm)
      · exact Or.inr (Or.inl (h1.trans hm))
    · exact Or.inr (Or.inr h1)

theorem foldl_min_le : ∀ (r : List ℚ) (x : ℚ), ∀ y ∈ x :: r, r.foldl min x ≤ y
  | [], x => by simp
  | a :: r, x => by
    intro y hy
    rw [List.foldl_cons]
    have h := foldl_min_le r (min x a)
    rcases List.mem_cons.mp hy with hyx | hy1
    · rw [hyx]
      exact le_trans (h (min x a) (List.mem_cons_self _ _)) (min_le_left x a)
    · rcases List.mem_cons.mp hy1 with hya | hy2
      · rw [hya]
        exact le_trans (h (min x a) (List.mem_cons_self _ _)) (min_le_right x a)
      · exact h y (List.mem_cons_of_mem _ hy2)

theorem foldl_max_mem : ∀ (r : List ℚ) (x : ℚ), r.foldl max x ∈ x :: r
  | [], _ => by simp
  | a :: r, x => by
    rw [List.foldl_cons]
    have h := foldl_max_mem r (max x a)
    simp only [List.mem_cons] at h ⊢
    rcases h with h1 | h1
    · rcases max_choice x a with hm | hm
      · exact Or.inl (h1.trans hm)
      · exact Or.inr (Or.inl (h1.trans hm))
    · exact Or.inr (Or.inr h1)

theorem foldl_max_ge : ∀ (r : List ℚ) (x : ℚ), ∀ y ∈ x :: r, y ≤ r.foldl max x
  | [], x => by simp
  | a :: r, x => by
    intro y hy
    rw [List.foldl_cons]
    have h := foldl_max_ge r (max x a)
    rcases List.mem_cons.mp hy with hyx | hy1
    · rw [hyx]
      exact le_trans (le_max_left x a) (h (max x a) (List.mem_cons_self _ _))
    · rcases List.mem_cons.mp hy1 with hya | hy2
      · rw [hya]
        exact le_trans (le_max_right x a) (h (max x a) (List.mem_cons_self _ _))
      · exact h y (List.mem_cons_of_mem _ hy2)

theorem npMean_const (xs : List ℚ) (hne : xs ≠ []) (c : ℚ)
    (hc : ∀ x ∈ xs, x = c) : npMean xs = c := by
  have hlen : (xs.length : ℚ) ≠ 0 := by
    exact_mod_cast fun h => hne (List.length_eq_zero.mp h)
  unfold npMean
  rw [List.sum_eq_card_nsmul xs c hc, nsmul_eq_mul]
  exact mul_div_cancel_left₀ c hlen

/-- Claim C7: for every non-empty sequence the statistics report carries
the mean (sum over count), the minimum and maximum of the data, and a
standard deviation whose square is the population variance — divisor `n`,
not `n - 1`; for a constant sequence the variance, and hence the reported
standard deviation, is 0. -/
theorem stats_report_fields (xs : List ℚ) (hne : xs ≠ []) :
    (statsReport xs).meanVal * xs.length = xs.sum ∧
    (statsReport xs).minVal ∈ xs ∧
    (∀ x ∈ xs, (statsReport xs).minVal ≤ x) ∧
    (statsReport xs).maxVal ∈ xs ∧
    (∀ x ∈ xs, x ≤ (statsReport xs).maxVal) ∧
    (statsReport xs).varianceVal * xs.length =
      (xs.map (fun x => (x - npMean xs) ^ 2)).sum ∧
    ∀ c : ℚ, (∀ x ∈ xs, x = c) →
      (statsReport xs).varianceVal = 0 ∧
      Real.sqrt ((statsReport xs).varianceVal) = 0 := by
  have hlen : (xs.length : ℚ) ≠ 0 := by
    exact_mod_cast fun h => hne (List.length_eq_zero.mp h)
  obtain ⟨x, r, rfl⟩ : ∃ x r, xs = x :: r := by
    cases xs with
    | nil => exact absurd rfl hne
    | cons x r => exact ⟨x, r, rfl⟩
  refine ⟨div_mul_cancel₀ _ hlen, foldl_min_mem r x, foldl_min_le r x,
    foldl_max_mem r x, foldl_max_ge r x, div_mul_cancel₀ _ hlen, ?_⟩
  intro c hc
  have hvar : (statsReport (x :: r)).varianceVal = 0 := by
    show popVariance (x :: r) = 0
    unfold popVariance
    rw [List.sum_eq_zero, zero_div]
    intro y hy
    obtain ⟨z, hz, rfl⟩ := List.mem_map.mp hy
    rw [hc z hz, npMean_const (x :: r) hne c hc]
    ring
  refine ⟨hvar, ?_⟩
  rw [hvar]
  simp

theorem stats_report_fields_witness :
    (statsReport [5, 5]).varianceVal = 0 ∧
    Real.sqrt ((statsReport [5, 5]).varianceVal) = 0 ∧
    (statsReport [5, 5]).minVal ∈ [(5 : ℚ), 5] := by
  have h := stats_report_fields [5, 5] (by decide)
  exact ⟨(h.2.2.2.2.2.2 5 (by decide)).1, (h.2.2.2.2.2.2 5 (by decide)).2,
    h.2.1⟩

theorem parseStep_congr (l₁ l₂ : String) (h : freqEquivLine l₁ l₂)
    (acc : List ℚ × List ℚ) : parseStep acc l₁ = parseStep acc l₂ := by
  rcases h with rfl | ⟨o, f₁, f₂, d, h₁, h₂⟩
  · rfl
  · unfold parseStep
    rw [h₁, h₂]

theorem foldl_parseStep_congr {ls₁ ls₂ : List String}
    (h : List.Forall₂ freqEquivLine ls₁ ls₂) :
    ∀ acc, ls₁.foldl parseStep acc = ls₂.foldl parseStep acc := by
  induction h with
  | nil => intro acc; rfl
  | cons hline hrest ih =>
    intro acc
    rw [List.foldl_cons, List.foldl_cons, parseStep_congr _ _ hline acc]
    exact ih _

/-- Claim C9: the frequency capture of a matched line never influences any
output: for two line lists that agree except possibly in the frequency
capture of matching lines, the parser produces identical offsets and
delays sequences, hence identical statistics reports and identical plot
data. -/
theorem freq_noninterference (ls₁ ls₂ : List String)
    (h : List.Forall₂ freqEquivLine ls₁ ls₂) :
    parseLines ls₁ = parseLines ls₂ ∧
    parseFileLines ls₁ = parseFileLines ls₂ ∧
    ∀ pair₁ pair₂, parseFileLines ls₁ = some pair₁ →
      parseFileLines ls₂ = some pair₂ →
      statsReport pair₁.1 = statsReport pair₂.1 ∧
      statsReport pair₁.2 = statsReport pair₂.2 ∧
      create_plot pair₁.1 = create_plot pair₂.1 ∧
      create_plot pair₁.2 = create_plot pair₂.2 := by
  have hp : parseLines ls₁ = parseLines ls₂ := foldl_parseStep_congr h ([], [])
  have hf : parseFileLines ls₁ = parseFileLines ls₂ := by
    unfold parseFileLines
    rw [hp]
  refine ⟨hp, hf, ?_⟩
  intro p₁ p₂ h₁ h₂
  rw [hf, h₂] at h₁
  injection h₁ with hpp
  rw [hpp]
  exact ⟨rfl, rfl, rfl, rfl⟩

theorem freq_noninterference_witness :
    parseLines [validLine] = parseLines [lineF7] ∧
    parseFileLines [validLine] = parseFileLines [lineF7] := by
  have hf : List.Forall₂ freqEquivLine [validLine] [lineF7] :=
    List.Forall₂.cons (Or.inr ⟨10, 5, 7, 20, by decide, by decide⟩)
      List.Forall₂.nil
  exact ⟨(freq_noninterference [validLine] [lineF7] hf).1,
    (freq_noninterference [validLine] [lineF7] hf).2.1⟩

theorem create_plot_isSome (data : List ℚ) (h : data ≠ []) :
    (create_plot data).isSome = true := by
  cases data with
  | nil => exact absurd rfl h
  | cons a r => simp [create_plot]

/-- Claim C10: whenever `parse_file` returns data, both sequences are
nonempty — the plot calls happen only inside the branch guarded by
`if offsets and delays:` — so `create_plot`'s failing empty-input branch
(`np.max` of an empty sequence) is unreachable from `parse_file`. -/
theorem plots_receive_nonempty_data (lines : List String)
    (pair : List ℚ × List ℚ) (h : parseFileLines lines = some pair) :
    pair.1 ≠ [] ∧ pair.2 ≠ [] ∧
    (create_plot pair.1).isSome = true ∧ (create_plot pair.2).isSome = true := by
  unfold parseFileLines at h
  split_ifs at h with hc
  injection h with hp
  rw [← hp]
  exact ⟨hc.1, hc.2, create_plot_isSome _ hc.1, create_plot_isSome _ hc.2⟩

theorem plots_receive_nonempty_data_witness :
    ([(10 : ℚ)] ≠ [] ∧ [(20 : ℚ)] ≠ [] ∧
     (create_plot [(10 : ℚ)]).isSome = true ∧
     (create_plot [(20 : ℚ)]).isSome = true) :=
  plots_receive_nonempty_data [validLine] ([10], [20]) (by decide)

theorem foldl_hostStep_eq (fs : FS) :
    ∀ (ms : List (String × String)) (acc : List (String × (List ℚ × List ℚ))),
      ms.foldl (hostStep fs) acc = acc ++ ms.filterMap (hostParse fs)
  | [], acc => by simp
  | m :: ms, acc => by
    rw [List.foldl_cons, foldl_hostStep_eq fs ms]
    cases hp : parse_file fs m.2 with
    | error e => simp [hostStep, hostParse, hp]
    | ok o =>
      cases o with
      | none => simp [hostStep, hostParse, hp]
      | some pair => simp [hostStep, hostParse, hp]

theorem runHostLoop_eq (fs : FS) (ms : List (String × String)) :
    runHostLoop fs ms = ms.filterMap (hostParse fs) := by
  simpa using foldl_hostStep_eq fs ms []

theorem compareLoop_cons (expd : List (String × (List ℚ × List ℚ)))
    (name : String) (c : List ℚ × List ℚ)
    (rest : List (String × (List ℚ × List ℚ))) :
    compareLoop expd ((name, c) :: rest) =
      match expd.lookup name with
      | none => ([], true)
      | some e =>
        (⟨name, "Offsets", c.1, e.1⟩ :: ⟨name, "Delays", c.2, e.2⟩ ::
          (compareLoop expd rest).1,
         (compareLoop expd rest).2) := rfl

theorem compareLoop_false_iff (expd : List (String × (List ℚ × List ℚ))) :
    ∀ ctrl, (compareLoop expd ctrl).2 = false ↔
      ∀ p ∈ ctrl, (expd.lookup p.1).isSome = true
  | [] => by simp [compareLoop]
  | (name, c) :: rest => by
    rw [compareLoop_cons]
    cases hl : expd.lookup name with
    | none =>
      constructor
      · intro h
        exact absurd h (by simp)
      · intro hall
        have hm := hall (name, c) (List.mem_cons_self _ _)
        rw [hl] at hm
        simp at hm
    | some e =>
      constructor
      · intro h p hp
        rcases List.mem_cons.mp hp with hpx | hp2
        · rw [hpx]
          simp [hl]
        · exact (compareLoop_false_iff expd rest).mp h p hp2
      · intro hall
        show (compareLoop expd rest).2 = false
        exact (compareLoop_false_iff expd rest).mpr
          (fun p hp => hall p (List.mem_cons_of_mem _ hp))

theorem compareLoop_no_abort_eq (expd : List (String × (List ℚ × List ℚ))) :
    ∀ ctrl, (∀ p ∈ ctrl, (expd.lookup p.1).isSome = true) →
      (compareLoop expd ctrl).1 = ctrl.flatMap (comparisonsFor expd)
  | [], _ => by simp [compareLoop]
  | (name, c) :: rest, hall => by
    rw [compareLoop_cons]
    cases hl : expd.lookup name with
    | none =>
      have hm := hall (name, c) (List.mem_cons_self _ _)
      rw [hl] at hm
      simp at hm
    | some e =>
      show _ :: _ :: (compareLoop expd rest).1 = _
      rw [List.flatMap_cons,
        compareLoop_no_abort_eq expd rest
          (fun p hp => hall p (List.mem_cons_of_mem _ hp))]
      simp [comparisonsFor, hl]

/-- Claim C1 (amended): with an experimental directory supplied, each
parse loop catches per-host failures, so a host appears in a dictionary
exactly when its own parse succeeded, independently of other hosts; the
comparison loop then runs without aborting exactly when every
control-parsed host also has experimental data, in which case it invokes
the Comparator for the offset metric and for the delay metric once per
control-parsed host, in host order.  A control-parsed host missing from
the experimental data raises an uncaught lookup error that terminates the
remaining comparisons. -/
theorem orchestrator_comparisons (fs : FS) (cp ep : String) :
    (main fs cp (some ep)).controlData = (machinesFor cp).filterMap (hostParse fs) ∧
    (main fs cp (some ep)).experimentalData = (machinesFor ep).filterMap (hostParse fs) ∧
    ((main fs cp (some ep)).aborted = false ↔
      ∀ p ∈ (machinesFor cp).filterMap (hostParse fs),
        (((machinesFor ep).filterMap (hostParse fs)).lookup p.1).isSome = true) ∧
    ((main fs cp (some ep)).aborted = false →
      (main fs cp (some ep)).comparisons =
        ((machinesFor cp).filterMap (hostParse fs)).flatMap
          (comparisonsFor ((machinesFor ep).filterMap (hostParse fs)))) := by
  refine ⟨runHostLoop_eq fs _, runHostLoop_eq fs _, ?_, ?_⟩
  · show (compareLoop (runHostLoop fs (machinesFor ep))
      (runHostLoop fs (machinesFor cp))).2 = false ↔ _
    rw [runHostLoop_eq fs (machinesFor ep), runHostLoop_eq fs (machinesFor cp)]
    exact compareLoop_false_iff _ _
  · intro h
    have h' : (compareLoop (runHostLoop fs (machinesFor ep))
        (runHostLoop fs (machinesFor cp))).2 = false := h
    rw [runHostLoop_eq fs (machinesFor ep),
      runHostLoop_eq fs (machinesFor cp)] at h'
    show (compareLoop (runHostLoop fs (machinesFor ep))
      (runHostLoop fs (machinesFor cp))).1 = _
    rw [runHostLoop_eq fs (machinesFor ep), runHostLoop_eq fs (machinesFor cp)]
    exact compareLoop_no_abort_eq _ _ ((compareLoop_false_iff _ _).mp h')

theorem orchestrator_comparisons_witness :
    (main fsC1w ("c") (some ("e"))).aborted = false ∧
    (main fsC1w ("c") (some ("e"))).comparisons =
      [⟨"Beta", "Offsets", [10], [10]⟩, ⟨"Beta", "Delays", [20], [20]⟩] := by
  refine ⟨by decide, ?_⟩
  have h := (orchestrator_comparisons fsC1w ("c") ("e")).2.2.2 (by decide)
  rw [h]
  decide

/-- Claim C1 (counterexample): control logs exist for Beta and Charlie but
an experimental log only for Charlie.  Beta's failed experimental parse is
caught and logged in the parse loop, yet the comparison loop's lookup for
Beta raises an uncaught `KeyError`: the run aborts with zero Comparator
invocations, even though Charlie has both control and experimental data
and was never compared. -/
theorem comparison_abort_cex :
    (main fsC1 ("ctrl") (some ("exp"))).aborted = true ∧
    (main fsC1 ("ctrl") (some ("exp"))).comparisons = [] ∧
    (main fsC1 ("ctrl") (some ("exp"))).controlData.lookup ("Charlie") =
      some ([10], [20]) ∧
    (main fsC1 ("ctrl") (some ("exp"))).experimentalData.lookup ("Charlie") =
      some ([10], [20]) := by
  decide

/-- Claim C2 (code-bug evidence): with four command-line arguments — a
count outside [2,3] — the program does not print usage and exit 1: the
guard tests `len(sys.argv) > 4`, so it runs the pipeline on the first two
path arguments and silently ignores the third.  Counts 1 and 5 do exit
with usage, and counts 2 and 3 run the pipeline as specified. -/
theorem cli_four_args_runs_pipeline :
    cliMain ["main.py", "a", "b", "c"] = CliAction.runTwo "a" "b" ∧
    cliMain ["main.py", "a", "b", "c"] ≠ CliAction.usageExit1 ∧
    cliMain ["main.py"] = CliAction.usageExit1 ∧
    cliMain ["main.py", "a", "b", "c", "d"] = CliAction.usageExit1 ∧
    cliMain ["main.py", "a"] = CliAction.runOne "a" ∧
    cliMain ["main.py", "a", "b"] = CliAction.runTwo "a" "b" := by
  decide

end PtpStats
